import Mathlib

/-!
Shallow embedding of the core of the `claude-dashboard` repository:
the usage-cache / fetch coordinator (`src/scripts/utils/zai-api-client.ts`),
the incremental transcript parser (`src/scripts/utils/transcript-parser.ts`)
and the recommendation engine (`calculateRecommendation` in the check-usage
script), together with theorems settling the frozen claims about them.

Modelling conventions:
- JavaScript numbers are embedded as `ℚ` (exact rational arithmetic); the
  `NaN` corner produced by coercing non-numeric JSON fields through
  `Math.round` is not representable and such fields are modelled as absent —
  no claim exercises that corner.
- File contents are `List Char` (one `Char` per byte of the UTF-8 text; all
  inputs of interest are ASCII), so the byte offsets tracked by the parser
  are list indices.
- `JSON.parse` on a single line, `new Date(s).getTime()` and the one-way
  credential hash `hashToken` (whose defining file `utils/hash.ts` is not
  part of the sources) are platform primitives; they enter the embedding as
  explicit function parameters.
- JavaScript `Map` / `Set` are embedded as insertion-ordered association
  lists: `Map.set` overwrites in place keeping the original position,
  `Set.add` is idempotent and appends — exactly the iteration-order
  semantics the source relies on.
-/

namespace ClaudeDashboard

/-- JSON value, the image of `JSON.parse`.  Numbers are modelled as `ℚ`. -/
inductive Json where
  | null : Json
  | bool : Bool → Json
  | num : ℚ → Json
  | str : String → Json
  | arr : List Json → Json
  | obj : List (String × Json) → Json
deriving Repr

/-- JavaScript truthiness of a JSON value: `null`, `false`, `0` and `""` are
falsy, every array and object is truthy. -/
def jsTruthy : Json → Bool
  | .null => false
  | .bool b => b
  | .num n => n != 0
  | .str s => s != ""
  | .arr _ => true
  | .obj _ => true

/-- Property access `j.k` on a parsed JSON value: defined on objects, and
`undefined` (here `none`) on every non-object, mirroring that property reads
on primitives and arrays used by the source yield `undefined`. -/
def getField (j : Json) (k : String) : Option Json :=
  match j with
  | .obj fields => fields.lookup k
  | _ => none

/-- JavaScript `typeof j === 'object'` for a parsed (non-undefined) JSON
value: true for objects, arrays and `null`. -/
def typeofIsObject : Json → Bool
  | .null => true
  | .arr _ => true
  | .obj _ => true
  | _ => false

/-! ### Insertion-ordered association lists (JavaScript `Map` / `Set`) -/

/-- Lookup in an insertion-ordered association list (`Map.get`). -/
def mapFind? {α : Type} (m : List (String × α)) (k : String) : Option α :=
  match m with
  | [] => none
  | (k', v) :: rest => if k' = k then some v else mapFind? rest k

/-- `Map.set`: overwrite in place when the key is present (keeping its
insertion position), append otherwise. -/
def mapSet {α : Type} (m : List (String × α)) (k : String) (v : α) :
    List (String × α) :=
  match m with
  | [] => [(k, v)]
  | (k', v') :: rest =>
    if k' = k then (k, v) :: rest else (k', v') :: mapSet rest k v

/-- `Map.delete`. -/
def mapDelete {α : Type} (m : List (String × α)) (k : String) :
    List (String × α) :=
  match m with
  | [] => []
  | (k', v') :: rest =>
    if k' = k then rest else (k', v') :: mapDelete rest k

/-- `Set.add`: idempotent, appends new elements at the end. -/
def setAdd (s : List String) (k : String) : List String :=
  if k ∈ s then s else s ++ [k]

/-! ### Transcript data model (`transcript-parser.ts` and `types.ts`) -/

/-- Content block of a transcript entry: a `tool_use` block carries `id`,
`name` and `input`, a `tool_result` block carries `tool_use_id`.  Fields are
optional because the JSON is duck-typed. -/
structure ContentBlock where
  type : String
  id : Option String := none
  name : Option String := none
  input : Option Json := none
  tool_use_id : Option String := none
deriving Repr

/-- The `message` field of a transcript entry (`message?.content`). -/
structure Message where
  content : Option (List ContentBlock) := none
deriving Repr

/-- One line of the transcript JSONL file after `JSON.parse`. -/
structure TranscriptEntry where
  type : String
  timestamp : Option String := none
  message : Option Message := none
deriving Repr

/-- Value stored in the `toolUses` map: tool name and the timestamp of the
containing entry. -/
structure ToolUse where
  name : String
  timestamp : Option String
deriving Repr

/-- `ParsedTranscript` from `types.ts`: entry sequence, session start time,
tool-use index and tool-result id set. -/
structure ParsedTranscript where
  entries : List TranscriptEntry
  sessionStartTime : Option ℤ := none
  toolUses : List (String × ToolUse)
  toolResults : List String
deriving Repr

/-- The fresh `ParsedTranscript` built at the start of a full parse. -/
def emptyParsed : ParsedTranscript :=
  { entries := [], toolUses := [], toolResults := [] }

/-- Truthiness of an optional string field (absent and `""` are falsy). -/
def optStrTruthy : Option String → Bool
  | none => false
  | some s => s != ""

/-- Truthiness of the stored `sessionStartTime` number (absent and `0` are
falsy; the `NaN` corner is outside the embedding). -/
def numTruthy : Option ℤ → Bool
  | none => false
  | some v => v != 0

/-! ### JSONL line splitting and parsing (`parseJsonlContent`) -/

/-- JavaScript `content.split('\n')` over byte lists.  `splitLines [] = [[]]`
and a trailing newline yields a trailing empty line, as in JavaScript. -/
def splitLines : List Char → List (List Char)
  | [] => [[]]
  | c :: rest =>
    if c = '\n' then [] :: splitLines rest
    else
      match splitLines rest with
      | [] => [[c]]
      | l :: ls => (c :: l) :: ls

/-- `parseJsonlContent`: split on newlines, skip empty lines, parse each
remaining line with the platform JSON parser `p` (`JSON.parse` followed by
the unchecked cast to `TranscriptEntry`), silently skipping lines on which
`p` fails (`JSON.parse` throws). -/
def parseJsonlContent (p : List Char → Option TranscriptEntry)
    (content : List Char) : List TranscriptEntry :=
  (splitLines content).filterMap fun line =>
    if line.isEmpty then none else p line

/-- Specification-side helper: the byte content of a sequence of
newline-terminated lines. -/
def linesJoin (ls : List (List Char)) : List Char :=
  (ls.map (fun l => l ++ ['\n'])).flatten

/-! ### Entry processing (`processEntries`) -/

/-- Process one transcript entry into the accumulated `ParsedTranscript`:
append it to the entry sequence, set the session start time when it is still
falsy and the entry bears a truthy timestamp, index `tool_use` blocks of
assistant entries and add `tool_result` ids of user entries.  `dateTime`
embeds `new Date(s).getTime()`. -/
def processEntry (dateTime : String → ℤ) (acc : ParsedTranscript)
    (entry : TranscriptEntry) : ParsedTranscript :=
  let st1 := { acc with entries := acc.entries ++ [entry] }
  let st2 :=
    if !numTruthy st1.sessionStartTime && optStrTruthy entry.timestamp then
      { st1 with sessionStartTime := some (dateTime (entry.timestamp.getD "")) }
    else st1
  let st3 :=
    if entry.type = "assistant" then
      match entry.message with
      | some m =>
        match m.content with
        | some blocks =>
          { st2 with toolUses := blocks.foldl (fun tu block =>
              if block.type = "tool_use" && optStrTruthy block.id
                  && optStrTruthy block.name then
                mapSet tu (block.id.getD "")
                  { name := block.name.getD "", timestamp := entry.timestamp }
              else tu) st2.toolUses }
        | none => st2
      | none => st2
    else st2
  if entry.type = "user" then
    match entry.message with
    | some m =>
      match m.content with
      | some blocks =>
        { st3 with toolResults := blocks.foldl (fun tr block =>
            if block.type = "tool_result" && optStrTruthy block.tool_use_id then
              setAdd tr (block.tool_use_id.getD "")
            else tr) st3.toolResults }
      | none => st3
    | none => st3
  else st3

/-- `processEntries`: fold all new entries into the accumulated state. -/
def processEntries (dateTime : String → ℤ) (entries : List TranscriptEntry)
    (existing : ParsedTranscript) : ParsedTranscript :=
  entries.foldl (processEntry dateTime) existing

/-! ### Incremental file parsing (`parseTranscript`) -/

/-- Cached transcript data with incremental parsing state (the module-level
`cachedTranscript` variable). -/
structure CachedTranscript where
  path : String
  size : ℕ
  data : ParsedTranscript
deriving Repr

/-- `readFromOffset`: the bytes of `content` from `offset` to `fileSize`,
together with the list of reads actually performed — no read is issued when
the requested range is empty. -/
def readFromOffset (content : List Char) (offset fileSize : ℕ) :
    List Char × List (ℕ × ℕ) :=
  if fileSize ≤ offset then ([], [])
  else ((content.take fileSize).drop offset, [(offset, fileSize - offset)])

/-- Result of one `parseTranscript` call: the new value of the
`cachedTranscript` variable, the returned value (`none` models the `null`
return when `stat` throws) and the byte ranges read. -/
structure ParseCallResult where
  cached : Option CachedTranscript
  ret : Option ParsedTranscript
  reads : List (ℕ × ℕ)

/-- `parseTranscript`: incremental parse of the JSONL file at `path`.  The
file system is embedded as `fs : String → Option (List Char)` (`none` makes
`stat` throw, the `catch` branch returns `null` leaving the cache alone). -/
def parseTranscript (p : List Char → Option TranscriptEntry)
    (dateTime : String → ℤ) (fs : String → Option (List Char)) (path : String)
    (cached : Option CachedTranscript) : ParseCallResult :=
  match fs path with
  | none => { cached := cached, ret := none, reads := [] }
  | some content =>
    let fileSize := content.length
    let fullParse : ParseCallResult :=
      let read := readFromOffset content 0 fileSize
      let data := processEntries dateTime (parseJsonlContent p read.1) emptyParsed
      { cached := some { path := path, size := fileSize, data := data },
        ret := some data, reads := read.2 }
    match cached with
    | some c =>
      if c.path = path ∧ c.size ≤ fileSize then
        if c.size = fileSize then
          { cached := some c, ret := some c.data, reads := [] }
        else
          let read := readFromOffset content c.size fileSize
          let data := processEntries dateTime (parseJsonlContent p read.1) c.data
          { cached := some { path := path, size := fileSize, data := data },
            ret := some data, reads := read.2 }
      else fullParse
    | none => fullParse

/-! ### Derived queries over the parsed transcript -/

/-- Running tool, as reported by `getRunningTools`. -/
structure RunningTool where
  name : String
  startTime : ℤ
deriving Repr

/-- `getRunningTools`: tools whose id is in `toolUses` but not in
`toolResults`; the start time is the parsed invocation timestamp, or the
current time `now` when the recorded timestamp is falsy. -/
def getRunningTools (dateTime : String → ℤ) (now : ℤ)
    (transcript : ParsedTranscript) : List RunningTool :=
  transcript.toolUses.foldl (fun running idTool =>
    if idTool.1 ∈ transcript.toolResults then running
    else
      let start : ℤ :=
        if optStrTruthy idTool.2.timestamp then
          dateTime (idTool.2.timestamp.getD "")
        else now
      running ++ [{ name := idTool.2.name, startTime := start }]) []

/-- `getCompletedToolCount`: size of the `toolResults` set. -/
def getCompletedToolCount (transcript : ParsedTranscript) : ℕ :=
  transcript.toolResults.length

/-- Truthiness of an optional JSON field (absent is falsy). -/
def jsonOptTruthy : Option Json → Bool
  | none => false
  | some j => jsTruthy j

/-- Test whether the `status` property of a todo item equals `s`
(`t.status === s` on duck-typed JSON). -/
def todoStatusIs (t : Json) (s : String) : Bool :=
  match getField t "status" with
  | some (.str st) => st == s
  | _ => false

/-- The scan at the top of `extractTodoProgress`: fold over the `toolUses`
map and, for every `TodoWrite` id that has a matching result, over all
entries and their blocks, remembering the last truthy `input` of a
`tool_use` block bearing that id. -/
def lastTodoInput (transcript : ParsedTranscript) : Option Json :=
  transcript.toolUses.foldl (fun acc idTool =>
    if idTool.2.name = "TodoWrite" ∧ idTool.1 ∈ transcript.toolResults then
      transcript.entries.foldl (fun acc2 entry =>
        if entry.type = "assistant" then
          match entry.message with
          | some m =>
            match m.content with
            | some blocks =>
              blocks.foldl (fun acc3 block =>
                if block.type = "tool_use" ∧ block.id = some idTool.1
                    ∧ jsonOptTruthy block.input then
                  block.input
                else acc3) acc2
            | none => acc2
          | none => acc2
        else acc2) acc
    else acc) none

/-- Current todo item, as reported by `extractTodoProgress` (`content` is the
raw `content` property, `undefined` when absent). -/
structure TodoCurrent where
  content : Option Json
  status : String
deriving Repr

/-- Todo progress snapshot returned by `extractTodoProgress`. -/
structure TodoProgress where
  current : Option TodoCurrent
  completed : ℕ
  total : ℕ
deriving Repr

/-- `extractTodoProgress`: take the last `TodoWrite` input found by the scan;
return `null` when it is falsy or not `typeof 'object'`, or when its `todos`
property is not an array; otherwise count completed items, total items and
the first `in_progress`/`pending` item. -/
def extractTodoProgress (transcript : ParsedTranscript) : Option TodoProgress :=
  match lastTodoInput transcript with
  | none => none
  | some input =>
    if !jsTruthy input || !typeofIsObject input then none
    else
      match getField input "todos" with
      | some (.arr todos) =>
        let completed := (todos.filter (fun t => todoStatusIs t "completed")).length
        let total := todos.length
        let current := todos.find? fun t =>
          todoStatusIs t "in_progress" || todoStatusIs t "pending"
        let mkCurrent : Json → TodoCurrent := fun c =>
          let status : String :=
            match getField c "status" with
            | some (.str s) => s
            | _ => ""
          { content := getField c "content", status := status }
        some { current := current.map mkCurrent,
               completed := completed, total := total }
      | _ => none

/-! ### z.ai usage client (`zai-api-client.ts`) -/

/-- `clampPercent`: `Math.min(100, Math.max(0, Math.round(value)))`.
Mathlib's `round` rounds half-way cases up, exactly like `Math.round`. -/
def clampPercent (value : ℚ) : ℤ :=
  min 100 (max 0 (round value))

/-- `calculateUsagePercent`: percentage of `currentValue` against
`currentValue + remaining`, `null` when that total is not positive. -/
def calculateUsagePercent (currentValue remaining : ℚ) : Option ℤ :=
  let total := currentValue + remaining
  if total ≤ 0 then none
  else some (clampPercent (currentValue / total * 100))

/-- Numeric property access.  The source checks `field !== undefined` and
then does number arithmetic on it; a present non-numeric field would flow
through `Math.round` as `NaN`, which `ℚ` cannot represent, so the embedding
treats such fields as absent (no claim exercises that corner). -/
def getNumField (j : Json) (k : String) : Option ℚ :=
  match getField j k with
  | some (.num q) => some q
  | _ => none

/-- `parseUsagePercent`: direct `percentage` field first, then
`currentValue`/`remaining`, then `currentValue`/`usage` (total limit). -/
def parseUsagePercent (limit : Json) : Option ℤ :=
  match getNumField limit "percentage" with
  | some p => some (clampPercent p)
  | none =>
    match getNumField limit "currentValue", getNumField limit "remaining" with
    | some c, some r => calculateUsagePercent c r
    | _, _ =>
      match getNumField limit "currentValue", getNumField limit "usage" with
      | some c, some u => if 0 < u then some (clampPercent (c / u * 100)) else none
      | _, _ => none

/-- `ZaiUsageLimits`: the validated snapshot built from the quota body. -/
structure ZaiUsageLimits where
  model : String
  tokensPercent : Option ℤ
  tokensResetAt : Option ℚ
  mcpPercent : Option ℤ
  mcpResetAt : Option ℚ
deriving Repr, DecidableEq

/-- Numeric reading of a JSON value (`null` and non-numbers give `none`). -/
def jsonAsNum : Json → Option ℚ
  | .num q => some q
  | _ => none

/-- One step of the `for (const limit of limits)` loop: update the four
accumulated fields from one element of the `limits` array. -/
def processLimit (acc : Option ℤ × Option ℚ × Option ℤ × Option ℚ)
    (limit : Json) : Option ℤ × Option ℚ × Option ℤ × Option ℚ :=
  let resetTime := getField limit "nextResetTime"
  match getField limit "type" with
  | some (.str t) =>
    if t = "TOKENS_LIMIT" then
      (parseUsagePercent limit,
       match resetTime with
       | some j => jsonAsNum j
       | none => acc.2.1,
       acc.2.2.1, acc.2.2.2)
    else if t = "TIME_LIMIT" then
      (acc.1, acc.2.1, parseUsagePercent limit,
       match resetTime with
       | some j => jsonAsNum j
       | none => acc.2.2.2)
    else acc
  | _ => acc

/-- The `typedData.data?.limits` access: optional chaining through the
`data` property. -/
def zaiLimits? (data : Json) : Option Json :=
  match getField data "data" with
  | some d => getField d "limits"
  | none => none

/-- Outcome of the platform `fetch` call: a rejection (network error, or the
5000 ms abort-signal timeout) or a response with its HTTP `ok` flag and the
result of `response.json()` (`none` when that call throws). -/
inductive HttpResult where
  | throwErr : HttpResult
  | response (ok : Bool) (body : Option Json) : HttpResult

/-- `fetchFromZaiApi`: issue the request, reject non-2xx responses and
unparsable or structurally invalid bodies, and assemble `ZaiUsageLimits`
from the `data.limits` array.  Every failure path returns `none` (the
source returns `null` and never throws: the whole body sits in a
`try`/`catch`). -/
def fetchFromZaiApi (resp : HttpResult) : Option ZaiUsageLimits :=
  match resp with
  | .throwErr => none
  | .response ok body =>
    if !ok then none
    else
      match body with
      | none => none
      | some data =>
        if !jsTruthy data || !typeofIsObject data then none
        else
          match zaiLimits? data with
          | some (.arr limits) =>
            let acc := limits.foldl processLimit (none, none, none, none)
            some { model := "GLM", tokensPercent := acc.1,
                   tokensResetAt := acc.2.1, mcpPercent := acc.2.2.1,
                   mcpResetAt := acc.2.2.2 }
          | _ => none

/-! ### Usage cache and fetch coordinator (`fetchZaiUsage`)

The `fetchCodexUsage` coordinator in the Codex client has the identical
cache / pending-request structure (keyed by the token hash alone); the
embedding models the z.ai instance, whose source file is given by name.

`fetchZaiUsage` interleaves with other asynchronous tasks only at `await`
points; the cache lookup, the pending-request lookup and the registration of
a new pending request all happen before the first `await` of a call, so a
call is one atomic step, and the completion of the awaited request (cache
update plus deregistration, in the `try`/`finally`) is another. -/

/-- `CacheEntry` from `types.ts`. -/
structure CacheEntry (α : Type) where
  data : α
  timestamp : ℤ
deriving Repr, DecidableEq

/-- Environment read by `fetchZaiUsage`: the provider flag, the endpoint
base URL and the bearer token (`none` embeds both null and the falsy empty
string). -/
structure ZaiEnv where
  isZaiProv : Bool
  baseUrl : Option String
  authToken : Option String

/-- Module-level mutable state of the z.ai client: the TTL cache and the
registry of in-flight requests.  A pending request is identified by a
numeric promise id so that sharing can be observed. -/
structure ZaiState where
  zaiCacheMap : List (String × CacheEntry ZaiUsageLimits)
  pendingRequests : List (String × ℕ)
deriving Repr, DecidableEq

/-- The cache key: endpoint base URL plus the one-way token fingerprint. -/
def zaiCacheKey (hashToken : String → String) (baseUrl authToken : String) :
    String :=
  baseUrl ++ ":" ++ hashToken authToken

/-- What one call of `fetchZaiUsage`, up to its first suspension point, does:
return `null` (provider unavailable), return the fresh cached snapshot,
await an already-registered pending request, or register and start a new
network fetch. -/
inductive FetchCallResult where
  | unavailable : FetchCallResult
  | cacheHit (data : ZaiUsageLimits) : FetchCallResult
  | awaitPending (pid : ℕ) : FetchCallResult
  | startFetch (pid : ℕ) : FetchCallResult
deriving Repr, DecidableEq

/-- The synchronous prefix of `fetchZaiUsage`: provider and credential
checks, cache-freshness check (`(now - timestamp) / 1000 < ttlSeconds`),
pending-request check, and registration of a fresh request (`freshPid`)
before any suspension point. -/
def fetchZaiCall (hashToken : String → String) (env : ZaiEnv) (st : ZaiState)
    (now : ℤ) (ttlSeconds : ℚ) (freshPid : ℕ) : ZaiState × FetchCallResult :=
  if !env.isZaiProv then (st, .unavailable)
  else
    match env.baseUrl, env.authToken with
    | some baseUrl, some authToken =>
      let cacheKey := zaiCacheKey hashToken baseUrl authToken
      let checkPending : ZaiState × FetchCallResult :=
        match mapFind? st.pendingRequests cacheKey with
        | some pid => (st, .awaitPending pid)
        | none =>
          ({ st with
              pendingRequests := mapSet st.pendingRequests cacheKey freshPid },
           .startFetch freshPid)
      match mapFind? st.zaiCacheMap cacheKey with
      | some cached =>
        if ((now : ℚ) - cached.timestamp) / 1000 < ttlSeconds then
          (st, .cacheHit cached.data)
        else checkPending
      | none => checkPending
    | _, _ => (st, .unavailable)

/-- Completion of an awaited request (the `try`/`finally` after the
`await`): a successful result is written to the cache, a `null` result
leaves the cache untouched, and in both cases the pending entry is
removed. -/
def fetchZaiComplete (st : ZaiState) (cacheKey : String)
    (result : Option ZaiUsageLimits) (now : ℤ) : ZaiState :=
  { zaiCacheMap :=
      match result with
      | some d => mapSet st.zaiCacheMap cacheKey { data := d, timestamp := now }
      | none => st.zaiCacheMap,
    pendingRequests := mapDelete st.pendingRequests cacheKey }

/-- The cache key a call under environment `env` uses, when the provider is
configured. -/
def callKey (hashToken : String → String) (env : ZaiEnv) : Option String :=
  if !env.isZaiProv then none
  else
    match env.baseUrl, env.authToken with
    | some baseUrl, some authToken => some (zaiCacheKey hashToken baseUrl authToken)
    | _, _ => none

/-- Coordinator state together with the multiset of keys of network fetches
that have been started and have not yet completed. -/
structure ZaiSys where
  st : ZaiState
  inflight : List String

/-- The state after one atomic call step, tracking a newly started network
fetch in `inflight`. -/
def applyCallSys (hashToken : String → String) (env : ZaiEnv) (sys : ZaiSys)
    (now : ℤ) (ttl : ℚ) (pid : ℕ) : ZaiSys :=
  let r := fetchZaiCall hashToken env sys.st now ttl pid
  { st := r.1,
    inflight :=
      match r.2, callKey hashToken env with
      | .startFetch _, some k => sys.inflight ++ [k]
      | _, _ => sys.inflight }

/-- The state after the completion step of the request registered under
`key`. -/
def applyCompleteSys (sys : ZaiSys) (key : String)
    (result : Option ZaiUsageLimits) (now : ℤ) : ZaiSys :=
  { st := fetchZaiComplete sys.st key result now,
    inflight := sys.inflight.erase key }

/-- Atomic steps of the coordinator: a call (up to its first suspension
point) or the completion of a registered pending request. -/
inductive ZaiStep (hashToken : String → String) (env : ZaiEnv) :
    ZaiSys → ZaiSys → Prop where
  | call (sys : ZaiSys) (now : ℤ) (ttl : ℚ) (pid : ℕ) :
      ZaiStep hashToken env sys (applyCallSys hashToken env sys now ttl pid)
  | complete (sys : ZaiSys) (key : String) (result : Option ZaiUsageLimits)
      (now : ℤ) (h : (mapFind? sys.st.pendingRequests key).isSome) :
      ZaiStep hashToken env sys (applyCompleteSys sys key result now)

/-- The initial coordinator state of a fresh process: empty cache, no
pending requests, nothing in flight. -/
def initZaiSys : ZaiSys := { st := { zaiCacheMap := [], pendingRequests := [] }, inflight := [] }

/-- States reachable from process start. -/
def ZaiReachable (hashToken : String → String) (env : ZaiEnv) (sys : ZaiSys) :
    Prop :=
  Relation.ReflTransGen (ZaiStep hashToken env) initZaiSys sys

/-! ### Recommendation engine (`calculateRecommendation` in check-usage) -/

/-- Per-provider usage summary (`CLIUsageInfo` from `types.ts`; the
render-only optional fields `model`, `plan` and `buckets` are omitted, none
of the embedded functions reads them). -/
structure CLIUsageInfo where
  name : String
  available : Bool
  error : Bool
  fiveHourPercent : Option ℚ
  sevenDayPercent : Option ℚ
  fiveHourReset : Option String
  sevenDayReset : Option String
deriving Repr, DecidableEq

/-- Translation strings consumed by the recommendation engine. -/
structure Translations where
  noData : String
  lowestUsage : String
  used : String
deriving Repr, DecidableEq

/-- Scored candidate. -/
structure Candidate where
  name : String
  score : ℚ
deriving Repr, DecidableEq, Inhabited

/-- Stable insertion of a candidate after all candidates of not-larger
score. -/
def insertCand (c : Candidate) : List Candidate → List Candidate
  | [] => [c]
  | d :: ds => if c.score < d.score then c :: d :: ds else d :: insertCand c ds

/-- `candidates.sort((a, b) => a.score - b.score)`: stable ascending sort
(ECMAScript requires `Array.prototype.sort` to be stable). -/
def sortCands (l : List Candidate) : List Candidate :=
  l.foldl (fun acc c => insertCand c acc) []

/-- Candidate collection of `calculateRecommendation`: sequential pushes
onto the `candidates` array.  Claude is skipped under the z.ai provider and
its `available` flag is never consulted; Codex, Gemini and z.ai require
`available`, no error and a non-null primary percentage. -/
def candidatesOf (isZaiProv : Bool) (claudeUsage : CLIUsageInfo)
    (codexUsage : Option CLIUsageInfo) (geminiUsage : Option CLIUsageInfo)
    (zaiUsage : Option CLIUsageInfo) : List Candidate :=
  let c0 : List Candidate := []
  let c1 :=
    if !isZaiProv ∧ !claudeUsage.error then
      match claudeUsage.fiveHourPercent with
      | some p => c0 ++ [{ name := "claude", score := p }]
      | none => c0
    else c0
  let c2 :=
    match codexUsage with
    | some u =>
      if u.available ∧ !u.error then
        match u.fiveHourPercent with
        | some p => c1 ++ [{ name := "codex", score := p }]
        | none => c1
      else c1
    | none => c1
  let c3 :=
    match geminiUsage with
    | some u =>
      if u.available ∧ !u.error then
        match u.fiveHourPercent with
        | some p => c2 ++ [{ name := "gemini", score := p }]
        | none => c2
      else c2
    | none => c2
  match zaiUsage with
  | some u =>
    if u.available ∧ !u.error then
      match u.fiveHourPercent with
      | some p => c3 ++ [{ name := "z.ai", score := p }]
      | none => c3
    else c3
  | none => c3

/-- The tail of `calculateRecommendation`: empty candidate list gives the
fixed no-data reason, otherwise sort ascending by score, take
`candidates[0]` and embed its score in the reason. -/
def calculateRecommendation (numToStr : ℚ → String) (isZaiProv : Bool)
    (claudeUsage : CLIUsageInfo) (codexUsage : Option CLIUsageInfo)
    (geminiUsage : Option CLIUsageInfo) (zaiUsage : Option CLIUsageInfo)
    (t : Translations) : Option String × String :=
  let candidates := candidatesOf isZaiProv claudeUsage codexUsage geminiUsage zaiUsage
  if candidates.length = 0 then (none, t.noData)
  else
    let best := (sortCands candidates).headI
    (some best.name,
     t.lowestUsage ++ " (" ++ numToStr best.score ++ "% " ++ t.used ++ ")")

/-! ### Concrete instances used by witnesses and counterexamples -/

/-- Minimal transcript entry of a given type, for concrete inputs. -/
def mkEntry (ty : String) : TranscriptEntry := { type := ty }

/-- Concrete line parser used by witnesses: accepts the one-byte lines `a`
and `c`, rejects everything else (as `JSON.parse` rejects a malformed
line). -/
def wParse : List Char → Option TranscriptEntry := fun l =>
  if l = ['a'] then some (mkEntry "A")
  else if l = ['c'] then some (mkEntry "C")
  else none

/-- Concrete embedding of `new Date(s).getTime()` used by witnesses: the
epoch timestamp parses to 0, everything else to 1000. -/
def wDate : String → ℤ := fun s =>
  if s = "1970-01-01T00:00:00.000Z" then 0 else 1000

/-- Canonical user-turn record carrying exactly one `tool_result` block for
the given id. -/
def resultEntry (id : String) : TranscriptEntry :=
  { type := "user",
    message := some { content := some [{ type := "tool_result", tool_use_id := some id }] } }

/-- Record bearing the epoch timestamp (`new Date` parses it to 0). -/
def wEntryEpoch : TranscriptEntry :=
  { type := "x", timestamp := some "1970-01-01T00:00:00.000Z" }

/-- Record bearing a later timestamp. -/
def wEntryLater : TranscriptEntry :=
  { type := "x", timestamp := some "2024-01-01T00:00:00.000Z" }

/-- Specification-side description of one reported running tool: recorded
name, and the parsed invocation timestamp or the current time when none
was recorded. -/
def mkRunningTool (d : String → ℤ) (now : ℤ) (p : String × ToolUse) :
    RunningTool :=
  { name := p.2.name,
    startTime :=
      if optStrTruthy p.2.timestamp then d (p.2.timestamp.getD "") else now }

/-- Concrete transcript state with one unresolved invocation `tool-1`. -/
def wState : ParsedTranscript :=
  { entries := [],
    toolUses := [("tool-1", { name := "Bash", timestamp := none })],
    toolResults := [] }

/-- Specification-side shape test used to state C10: the `todos` array of a
truthy, object-typed input, `none` when the input fails any of the checks
`extractTodoProgress` makes before trusting it. -/
def todosArray? (j : Json) : Option (List Json) :=
  if !jsTruthy j || !typeofIsObject j then none
  else
    match getField j "todos" with
    | some (.arr ts) => some ts
    | _ => none

/-- Well-formed `TodoWrite` input: one completed todo item. -/
def wTodosInput : Json :=
  Json.obj [("todos", Json.arr
    [Json.obj [("content", Json.str "x"), ("status", Json.str "completed")]])]

/-- Assistant record invoking a tool, with the given id, name and input. -/
def invocationEntry (id nm : String) (input : Json) : TranscriptEntry :=
  let block : ContentBlock :=
    { type := "tool_use", id := some id, name := some nm, input := some input }
  { type := "assistant", message := some { content := some [block] } }

/-- Assistant record invoking `TodoWrite` (id `t1`) with a well-formed
one-item todo list. -/
def wTodoEntryA : TranscriptEntry := invocationEntry "t1" "TodoWrite" wTodosInput

/-- Assistant record invoking `TodoWrite` (id `t2`) whose input is the JSON
literal `null` — present, but not an object containing a `todos` array (and
falsy). -/
def wTodoEntryB : TranscriptEntry := invocationEntry "t2" "TodoWrite" Json.null

/-- State after processing both `TodoWrite` invocations and both results;
the chronologically last resolved `TodoWrite` invocation is `t2`. -/
def wTodoState : ParsedTranscript :=
  processEntries wDate
    [wTodoEntryA, resultEntry "t1", wTodoEntryB, resultEntry "t2"] emptyParsed

/-- Concrete file system for the C5 witness: one two-byte file. -/
def wfs : String → Option (List Char) := fun path =>
  if path = "a.jsonl" then some ['a', '\n'] else none

/-- Concrete stale cache whose tracked offset exceeds the file size. -/
def wCached : CachedTranscript := { path := "a.jsonl", size := 5, data := wState }

/-- Specification-side description of the cache slot after a full re-parse
of `content` from byte 0: fresh state built from scratch, offset at the
observed size. -/
def fullReparse (p : List Char → Option TranscriptEntry) (d : String → ℤ)
    (path : String) (content : List Char) : CachedTranscript :=
  { path := path, size := content.length,
    data := processEntries d (parseJsonlContent p content) emptyParsed }

/-- Concrete file system for the C3 witness: the file after one line `a`
was parsed and one line `c` was appended. -/
def wfs2 : String → Option (List Char) := fun path =>
  if path = "a.jsonl" then some ['a', '\n', 'c', '\n'] else none

/-- Cache state corresponding to a completed parse of the one-line file
`"a\n"`. -/
def wCached2 : CachedTranscript :=
  { path := "a.jsonl", size := (linesJoin [['a']]).length,
    data := processEntries wDate (parseJsonlContent wParse (linesJoin [['a']]))
      emptyParsed }

/-- Specification-side eligibility for an optional provider summary:
marked available, not in error, primary percentage non-null. -/
def eligOpt (nm : String) (u : Option CLIUsageInfo) : List Candidate :=
  match u with
  | some u' =>
    if u'.available ∧ !u'.error then
      match u'.fiveHourPercent with
      | some p => [{ name := nm, score := p }]
      | none => []
    else []
  | none => []

/-- Specification-side candidate list stated by the amended C7: Claude's
slot ignores `available` and is gated on not running under the z.ai
provider; the other three providers use the eligibility rule of the
claim. -/
def specCandidates (isZaiProv : Bool) (claudeUsage : CLIUsageInfo)
    (codexUsage : Option CLIUsageInfo) (geminiUsage : Option CLIUsageInfo)
    (zaiUsage : Option CLIUsageInfo) : List Candidate :=
  (if !isZaiProv ∧ !claudeUsage.error then
    match claudeUsage.fiveHourPercent with
    | some p => [{ name := "claude", score := p }]
    | none => []
   else [])
  ++ eligOpt "codex" codexUsage ++ eligOpt "gemini" geminiUsage
  ++ eligOpt "z.ai" zaiUsage

/-- Concrete translations. -/
def wT : Translations :=
  { noData := "no data", lowestUsage := "lowest usage", used := "used" }

/-- Concrete platform number formatter (the witnesses only format whole
numbers). -/
def wNum : ℚ → String := fun q => toString q.num

/-- Concrete usage summary: provider of the given name, available,
error-free, with the given primary percentage. -/
def wUsage (nm : String) (p : Option ℚ) : CLIUsageInfo :=
  { name := nm, available := true, error := false, fiveHourPercent := p,
    sevenDayPercent := none, fiveHourReset := none, sevenDayReset := none }

/-- Claude summary that is NOT marked available yet carries a score — the
C7 counterexample input. -/
def wBadClaude : CLIUsageInfo :=
  { name := "Claude", available := false, error := false,
    fiveHourPercent := some 50, sevenDayPercent := none,
    fiveHourReset := none, sevenDayReset := none }

/-- Coordinator invariant: pending keys are distinct, and for every key the
number of in-flight network fetches is 1 when a pending request is
registered under that key and 0 otherwise. -/
def ZaiInv (sys : ZaiSys) : Prop :=
  (sys.st.pendingRequests.map Prod.fst).Nodup ∧
  ∀ k, sys.inflight.count k
    = (if (mapFind? sys.st.pendingRequests k).isSome then 1 else 0)

/-- The failing fetch attempts enumerated by the failure policy: a thrown
`fetch` (network error or the abort-signal timeout), a non-2xx response, a
body that is not parsable JSON, or a body failing the structural
validation (falsy, not object-typed, or without a `data.limits` array). -/
def FailingResp : HttpResult → Prop
  | .throwErr => True
  | .response ok body =>
    ok = false ∨ body = none ∨
      ∃ data, body = some data ∧
        (jsTruthy data = false ∨ typeofIsObject data = false ∨
          ∀ ls, zaiLimits? data ≠ some (Json.arr ls))

/-- Concrete snapshot for the C2 witness. -/
def wLimits : ZaiUsageLimits :=
  { model := "GLM", tokensPercent := some 10, tokensResetAt := none,
    mcpPercent := none, mcpResetAt := none }

/-- Concrete coordinator state holding one previously stored valid cache
entry under key `k`. -/
def wZaiState : ZaiState :=
  { zaiCacheMap := [("k", { data := wLimits, timestamp := 5 })],
    pendingRequests := [] }

/-! ## Helper lemmas -/

lemma splitLines_ne_nil (content : List Char) : splitLines content ≠ [] := by
  induction content with
  | nil => simp [splitLines]
  | cons c rest ih =>
    by_cases h : c = '\n'
    · simp [splitLines, h]
    · cases hr : splitLines rest with
      | nil => simp [splitLines, h, hr]
      | cons l ls => simp [splitLines, h, hr]

/-- Splitting content that starts with a whole (newline-free) line followed
by a newline peels off exactly that line. -/
lemma splitLines_cons_line (l rest : List Char) (hl : '\n' ∉ l) :
    splitLines (l ++ '\n' :: rest) = l :: splitLines rest := by
  induction l with
  | nil => simp [splitLines]
  | cons c l' ih =>
    have hc : c ≠ '\n' := fun h => hl (h ▸ List.mem_cons_self c l')
    have ih' := ih (fun h => hl (List.mem_cons_of_mem c h))
    simp only [List.cons_append, splitLines, if_neg hc, List.append_eq, ih']

/-- Splitting a sequence of newline-terminated, newline-free lines followed
by arbitrary content yields those lines followed by the split of the rest. -/
lemma splitLines_linesJoin_append (ls : List (List Char)) (b : List Char)
    (h : ∀ l ∈ ls, '\n' ∉ l) :
    splitLines (linesJoin ls ++ b) = ls ++ splitLines b := by
  induction ls with
  | nil => simp [linesJoin]
  | cons l ls ih =>
    have hl : '\n' ∉ l := h l (List.mem_cons_self l ls)
    have hls : ∀ x ∈ ls, '\n' ∉ x := fun x hx => h x (List.mem_cons_of_mem l hx)
    have : linesJoin (l :: ls) ++ b = l ++ '\n' :: (linesJoin ls ++ b) := by
      simp [linesJoin]
    rw [this, splitLines_cons_line l _ hl, ih hls]
    simp

lemma splitLines_linesJoin (ls : List (List Char)) (h : ∀ l ∈ ls, '\n' ∉ l) :
    splitLines (linesJoin ls) = ls ++ [[]] := by
  have := splitLines_linesJoin_append ls [] h
  simpa [splitLines] using this

/-- Parsing newline-terminated lines parses each line independently. -/
lemma parseJsonlContent_linesJoin (p : List Char → Option TranscriptEntry)
    (ls : List (List Char)) (h : ∀ l ∈ ls, '\n' ∉ l) :
    parseJsonlContent p (linesJoin ls)
      = ls.filterMap (fun l => if l.isEmpty then none else p l) := by
  unfold parseJsonlContent
  rw [splitLines_linesJoin ls h]
  simp

lemma processEntry_entries (d : String → ℤ) (acc : ParsedTranscript)
    (e : TranscriptEntry) : (processEntry d acc e).entries = acc.entries ++ [e] := by
  unfold processEntry
  dsimp only
  repeat' split
  all_goals rfl

lemma processEntry_sessionStartTime (d : String → ℤ) (acc : ParsedTranscript)
    (e : TranscriptEntry) :
    (processEntry d acc e).sessionStartTime =
      if !numTruthy acc.sessionStartTime && optStrTruthy e.timestamp then
        some (d (e.timestamp.getD ""))
      else acc.sessionStartTime := by
  unfold processEntry
  dsimp only
  repeat' split
  all_goals rfl

lemma processEntries_entries (d : String → ℤ) (es : List TranscriptEntry)
    (st : ParsedTranscript) :
    (processEntries d es st).entries = st.entries ++ es := by
  induction es generalizing st with
  | nil => simp [processEntries]
  | cons e es ih =>
    show (processEntries d es (processEntry d st e)).entries = _
    rw [ih, processEntry_entries]
    simp

lemma processEntry_resultEntry (d : String → ℤ) (acc : ParsedTranscript)
    (id : String) (hid : id ≠ "") :
    (processEntry d acc (resultEntry id)).toolUses = acc.toolUses ∧
    (processEntry d acc (resultEntry id)).toolResults = setAdd acc.toolResults id ∧
    (processEntry d acc (resultEntry id)).sessionStartTime = acc.sessionStartTime := by
  unfold processEntry resultEntry
  simp [optStrTruthy, hid]

/-- The array-building fold of `getRunningTools` is the filter of
unresolved ids mapped to their reported name and start time. -/
lemma getRunningTools_eq (d : String → ℤ) (now : ℤ) (t : ParsedTranscript) :
    getRunningTools d now t
      = (t.toolUses.filter (fun p => p.1 ∉ t.toolResults)).map
          (fun p =>
            { name := p.2.name,
              startTime :=
                if optStrTruthy p.2.timestamp then d (p.2.timestamp.getD "")
                else now }) := by
  unfold getRunningTools
  suffices h : ∀ (l : List (String × ToolUse)) (acc : List RunningTool),
      l.foldl (fun running idTool =>
        if idTool.1 ∈ t.toolResults then running
        else
          let start : ℤ :=
            if optStrTruthy idTool.2.timestamp then d (idTool.2.timestamp.getD "")
            else now
          running ++ [{ name := idTool.2.name, startTime := start }]) acc
      = acc ++ (l.filter (fun p => p.1 ∉ t.toolResults)).map
          (fun p =>
            { name := p.2.name,
              startTime :=
                if optStrTruthy p.2.timestamp then d (p.2.timestamp.getD "")
                else now }) by
    simpa using h t.toolUses []
  intro l
  induction l with
  | nil => simp
  | cons p l ih =>
    intro acc
    by_cases hp : p.1 ∈ t.toolResults
    · simp [hp, ih]
    · simp [hp, ih]

/-- Restatement of `getRunningTools_eq` through the named constructor. -/
lemma getRunningTools_eq' (d : String → ℤ) (now : ℤ) (t : ParsedTranscript) :
    getRunningTools d now t
      = (t.toolUses.filter (fun p => p.1 ∉ t.toolResults)).map
          (mkRunningTool d now) := by
  rw [getRunningTools_eq]
  rfl

/-- Parsing lines followed by further content splits as the lines' parses
followed by the parse of the rest. -/
lemma parseJsonlContent_linesJoin_append (p : List Char → Option TranscriptEntry)
    (ls : List (List Char)) (b : List Char) (h : ∀ l ∈ ls, '\n' ∉ l) :
    parseJsonlContent p (linesJoin ls ++ b)
      = ls.filterMap (fun l => if l.isEmpty then none else p l)
          ++ parseJsonlContent p b := by
  unfold parseJsonlContent
  rw [splitLines_linesJoin_append ls b h, List.filterMap_append]

lemma length_filterMap_all_some {α β : Type} (f : α → Option β) :
    ∀ l : List α, (∀ x ∈ l, (f x).isSome) → (l.filterMap f).length = l.length := by
  intro l
  induction l with
  | nil => intro _; rfl
  | cons x l ih =>
    intro h
    have hx := h x (List.mem_cons_self x l)
    obtain ⟨y, hy⟩ := Option.isSome_iff_exists.mp hx
    have hl := fun z hz => h z (List.mem_cons_of_mem x hz)
    simp [List.filterMap_cons, hy, ih hl]

lemma processEntries_append (d : String → ℤ) (e1 e2 : List TranscriptEntry)
    (st : ParsedTranscript) :
    processEntries d (e1 ++ e2) st = processEntries d e2 (processEntries d e1 st) := by
  unfold processEntries
  rw [List.foldl_append]

lemma linesJoin_length_pos (ls : List (List Char)) (h : ls ≠ []) :
    0 < (linesJoin ls).length := by
  cases ls with
  | nil => exact absurd rfl h
  | cons l ls => simp [linesJoin]

lemma mapFind?_eq_none_iff {α : Type} (m : List (String × α)) (k : String) :
    mapFind? m k = none ↔ k ∉ m.map Prod.fst := by
  induction m with
  | nil => simp [mapFind?]
  | cons kv m ih =>
    obtain ⟨k', v⟩ := kv
    by_cases h : k' = k
    · subst h
      simp [mapFind?]
    · simp [mapFind?, h, ih, Ne.symm h]

lemma mapFind?_mapSet_self {α : Type} (m : List (String × α)) (k : String)
    (v : α) : mapFind? (mapSet m k v) k = some v := by
  induction m with
  | nil => simp [mapSet, mapFind?]
  | cons kv m ih =>
    obtain ⟨k', v'⟩ := kv
    by_cases h : k' = k
    · simp [mapSet, mapFind?, h]
    · simp [mapSet, mapFind?, h, ih]

lemma mapFind?_mapSet_ne {α : Type} (m : List (String × α)) (k k' : String)
    (v : α) (h : k' ≠ k) : mapFind? (mapSet m k v) k' = mapFind? m k' := by
  induction m with
  | nil => simp [mapSet, mapFind?, Ne.symm h, h]
  | cons kv m ih =>
    obtain ⟨k0, v0⟩ := kv
    by_cases h0 : k0 = k
    · subst h0
      simp [mapSet, mapFind?, Ne.symm h, h]
    · simp only [mapSet, if_neg h0, mapFind?]
      by_cases h1 : k0 = k'
      · simp [h1]
      · simp [h1, ih]

lemma mapSet_keys_of_absent {α : Type} (m : List (String × α)) (k : String)
    (v : α) (h : mapFind? m k = none) :
    (mapSet m k v).map Prod.fst = m.map Prod.fst ++ [k] := by
  induction m with
  | nil => simp [mapSet]
  | cons kv m ih =>
    obtain ⟨k', v'⟩ := kv
    by_cases h' : k' = k
    · subst h'
      simp [mapFind?] at h
    · simp only [mapFind?, if_neg h'] at h
      simp [mapSet, h', ih h]

lemma mapDelete_keys {α : Type} (m : List (String × α)) (k : String) :
    (mapDelete m k).map Prod.fst = (m.map Prod.fst).erase k := by
  induction m with
  | nil => simp [mapDelete]
  | cons kv m ih =>
    obtain ⟨k', v'⟩ := kv
    by_cases h : k' = k
    · subst h
      simp [mapDelete, List.erase_cons_head]
    · simp [mapDelete, h, List.erase_cons_tail, ih]

lemma mapFind?_mapDelete_self {α : Type} (m : List (String × α)) (k : String)
    (h : (m.map Prod.fst).Nodup) : mapFind? (mapDelete m k) k = none := by
  rw [mapFind?_eq_none_iff, mapDelete_keys]
  exact h.not_mem_erase

lemma mapFind?_mapDelete_ne {α : Type} (m : List (String × α)) (k k' : String)
    (h : k' ≠ k) : mapFind? (mapDelete m k) k' = mapFind? m k' := by
  induction m with
  | nil => simp [mapDelete]
  | cons kv m ih =>
    obtain ⟨k0, v0⟩ := kv
    by_cases h0 : k0 = k
    · subst h0
      simp [mapDelete, mapFind?, Ne.symm h]
    · simp only [mapDelete, if_neg h0, mapFind?]
      by_cases h1 : k0 = k'
      · simp [h1]
      · simp [h1, ih]

/-- A call either leaves the coordinator state unchanged and starts no
network fetch, or the provider key has no pending request, the call starts
a network fetch and registers it before any suspension point. -/
lemma fetchZaiCall_cases (hashToken : String → String) (env : ZaiEnv)
    (st : ZaiState) (now : ℤ) (ttl : ℚ) (pid : ℕ) :
    ((fetchZaiCall hashToken env st now ttl pid).1 = st ∧
      ∀ q, (fetchZaiCall hashToken env st now ttl pid).2 ≠ .startFetch q) ∨
    (∃ key, callKey hashToken env = some key ∧
      mapFind? st.pendingRequests key = none ∧
      fetchZaiCall hashToken env st now ttl pid
        = ({ st with pendingRequests := mapSet st.pendingRequests key pid },
           .startFetch pid)) := by
  cases henv : env.isZaiProv with
  | false =>
    left
    constructor
    · simp [fetchZaiCall, henv]
    · intro q
      simp [fetchZaiCall, henv]
  | true =>
    cases hb : env.baseUrl with
    | none =>
      left
      constructor
      · simp [fetchZaiCall, henv, hb]
      · intro q
        simp [fetchZaiCall, henv, hb]
    | some b =>
      cases ht : env.authToken with
      | none =>
        left
        constructor
        · simp [fetchZaiCall, henv, hb, ht]
        · intro q
          simp [fetchZaiCall, henv, hb, ht]
      | some tok =>
        cases hc : mapFind? st.zaiCacheMap (zaiCacheKey hashToken b tok) with
        | some ce =>
          by_cases hfresh : ((now : ℚ) - ce.timestamp) / 1000 < ttl
          · left
            constructor
            · simp [fetchZaiCall, henv, hb, ht, hc, hfresh]
            · intro q
              simp [fetchZaiCall, henv, hb, ht, hc, hfresh]
          · cases hp : mapFind? st.pendingRequests (zaiCacheKey hashToken b tok) with
            | some pid' =>
              left
              constructor
              · simp [fetchZaiCall, henv, hb, ht, hc, hfresh, hp]
              · intro q
                simp [fetchZaiCall, henv, hb, ht, hc, hfresh, hp]
            | none =>
              right
              refine ⟨zaiCacheKey hashToken b tok, by simp [callKey, henv, hb, ht],
                hp, ?_⟩
              simp [fetchZaiCall, henv, hb, ht, hc, hfresh, hp]
        | none =>
          cases hp : mapFind? st.pendingRequests (zaiCacheKey hashToken b tok) with
          | some pid' =>
            left
            constructor
            · simp [fetchZaiCall, henv, hb, ht, hc, hp]
            · intro q
              simp [fetchZaiCall, henv, hb, ht, hc, hp]
          | none =>
            right
            refine ⟨zaiCacheKey hashToken b tok, by simp [callKey, henv, hb, ht],
              hp, ?_⟩
            simp [fetchZaiCall, henv, hb, ht, hc, hp]

/-- A call step either leaves the whole system unchanged or registers the
pending request and starts one network fetch for the provider key. -/
lemma applyCallSys_cases (hashToken : String → String) (env : ZaiEnv)
    (sys : ZaiSys) (now : ℤ) (ttl : ℚ) (pid : ℕ) :
    applyCallSys hashToken env sys now ttl pid = sys ∨
    (∃ key, callKey hashToken env = some key ∧
      mapFind? sys.st.pendingRequests key = none ∧
      applyCallSys hashToken env sys now ttl pid
        = { st := { sys.st with
              pendingRequests := mapSet sys.st.pendingRequests key pid },
            inflight := sys.inflight ++ [key] }) := by
  rcases fetchZaiCall_cases hashToken env sys.st now ttl pid with
    ⟨hst, hns⟩ | ⟨key, hkey, hpend, heq⟩
  · left
    unfold applyCallSys
    cases hr2 : (fetchZaiCall hashToken env sys.st now ttl pid).2 with
    | startFetch q => exact absurd hr2 (hns q)
    | unavailable => simp [hr2, hst]
    | cacheHit dta => simp [hr2, hst]
    | awaitPending pid' => simp [hr2, hst]
  · right
    refine ⟨key, hkey, hpend, ?_⟩
    unfold applyCallSys
    rw [heq, hkey]

lemma zaiInv_init : ZaiInv initZaiSys := by
  constructor
  · simp [initZaiSys]
  · intro k
    simp [initZaiSys, mapFind?]

lemma zaiInv_step (hashToken : String → String) (env : ZaiEnv) {a b : ZaiSys}
    (h : ZaiStep hashToken env a b) (ha : ZaiInv a) : ZaiInv b := by
  cases h with
  | call now ttl pid =>
    rcases applyCallSys_cases hashToken env a now ttl pid with
      heq | ⟨key, hkey, hpend, heq⟩
    · rw [heq]
      exact ha
    · rw [heq]
      obtain ⟨hnodup, hcount⟩ := ha
      constructor
      · show ((mapSet a.st.pendingRequests key pid).map Prod.fst).Nodup
        rw [mapSet_keys_of_absent _ _ _ hpend]
        have hkmem : key ∉ a.st.pendingRequests.map Prod.fst :=
          (mapFind?_eq_none_iff _ _).mp hpend
        simp [List.nodup_append, hnodup, hkmem]
      · intro k
        show (a.inflight ++ [key]).count k = _
        rw [List.count_append]
        by_cases hk : k = key
        · subst hk
          have h0 : a.inflight.count k = 0 := by
            have := hcount k
            rw [hpend] at this
            simpa using this
          rw [h0, mapFind?_mapSet_self]
          simp
        · have := hcount k
          rw [mapFind?_mapSet_ne _ _ _ _ hk]
          simpa [List.count_singleton, Ne.symm hk, hk] using this
  | complete key result now hg =>
    obtain ⟨hnodup, hcount⟩ := ha
    unfold ZaiInv applyCompleteSys fetchZaiComplete
    dsimp only
    constructor
    · rw [mapDelete_keys]
      exact hnodup.erase key
    · intro k
      by_cases hk : k = key
      · subst hk
        rw [mapFind?_mapDelete_self _ _ hnodup]
        have h1 : a.inflight.count k = 1 := by
          have := hcount k
          rw [if_pos hg] at this
          exact this
        simp [List.count_erase_self, h1]
      · rw [List.count_erase_of_ne hk, mapFind?_mapDelete_ne _ _ _ (by exact hk)]
        exact hcount k

/-- Every state reachable from process start satisfies the coordinator
invariant. -/
lemma zaiInv_reachable (hashToken : String → String) (env : ZaiEnv)
    (sys : ZaiSys) (h : ZaiReachable hashToken env sys) : ZaiInv sys := by
  induction h with
  | refl => exact zaiInv_init
  | tail hab hbc ih => exact zaiInv_step hashToken env hbc ih

lemma insertCand_perm (c : Candidate) (l : List Candidate) :
    List.Perm (insertCand c l) (c :: l) := by
  induction l with
  | nil => exact List.Perm.refl _
  | cons d ds ih =>
    unfold insertCand
    by_cases h : c.score < d.score
    · rw [if_pos h]
    · rw [if_neg h]
      exact (ih.cons d).trans (List.Perm.swap c d ds)

lemma insertCand_sorted (c : Candidate) (l : List Candidate)
    (h : l.Sorted (fun a b : Candidate => a.score ≤ b.score)) :
    (insertCand c l).Sorted (fun a b : Candidate => a.score ≤ b.score) := by
  induction l with
  | nil => simp [insertCand]
  | cons d ds ih =>
    unfold insertCand
    by_cases hc : c.score < d.score
    · rw [if_pos hc, List.sorted_cons]
      refine ⟨?_, h⟩
      intro b hb
      rcases List.mem_cons.mp hb with rfl | hb'
      · exact le_of_lt hc
      · exact le_trans (le_of_lt hc) ((List.sorted_cons.mp h).1 b hb')
    · rw [if_neg hc]
      rw [List.sorted_cons] at h
      obtain ⟨hd, hds⟩ := h
      rw [List.sorted_cons]
      refine ⟨?_, ih hds⟩
      intro b hb
      rcases List.mem_cons.mp ((insertCand_perm c ds).mem_iff.mp hb) with rfl | hbds
      · exact not_lt.mp hc
      · exact hd b hbds

lemma sortCands_perm (l : List Candidate) : List.Perm (sortCands l) l := by
  suffices h : ∀ (l acc : List Candidate),
      List.Perm (List.foldl (fun acc c => insertCand c acc) acc l) (l ++ acc) by
    simpa using h l []
  intro l
  induction l with
  | nil => intro acc; simp
  | cons c cs ih =>
    intro acc
    show List.Perm (List.foldl _ (insertCand c acc) cs) _
    exact (ih (insertCand c acc)).trans
      ((List.Perm.append_left cs (insertCand_perm c acc)).trans List.perm_middle)

lemma sortCands_sorted (l : List Candidate) :
    (sortCands l).Sorted (fun a b : Candidate => a.score ≤ b.score) := by
  suffices h : ∀ (l acc : List Candidate),
      acc.Sorted (fun a b : Candidate => a.score ≤ b.score) →
      (List.foldl (fun acc c => insertCand c acc) acc l).Sorted
        (fun a b : Candidate => a.score ≤ b.score) by
    exact h l [] List.sorted_nil
  intro l
  induction l with
  | nil => intro acc hacc; exact hacc
  | cons c cs ih =>
    intro acc hacc
    exact ih (insertCand c acc) (insertCand_sorted c acc hacc)

/-- The sequential candidate pushes equal the concatenation of the
per-provider eligibility segments. -/
lemma candidatesOf_eq_spec (isZaiProv : Bool) (claudeUsage : CLIUsageInfo)
    (codexUsage geminiUsage zaiUsage : Option CLIUsageInfo) :
    candidatesOf isZaiProv claudeUsage codexUsage geminiUsage zaiUsage
      = specCandidates isZaiProv claudeUsage codexUsage geminiUsage zaiUsage := by
  have hpush : ∀ (nm : String) (u : Option CLIUsageInfo) (base : List Candidate),
      (match u with
       | some u' =>
         if u'.available ∧ !u'.error then
           match u'.fiveHourPercent with
           | some p => base ++ [{ name := nm, score := p }]
           | none => base
         else base
       | none => base)
      = base ++ eligOpt nm u := by
    intro nm u base
    cases u with
    | none => simp [eligOpt]
    | some u' =>
      simp only [eligOpt]
      by_cases h : u'.available ∧ !u'.error
      · rw [if_pos h, if_pos h]
        cases hp : u'.fiveHourPercent <;> simp [hp]
      · rw [if_neg h, if_neg h]
        simp
  unfold candidatesOf specCandidates
  dsimp only
  rw [hpush "codex" codexUsage, hpush "gemini" geminiUsage,
    hpush "z.ai" zaiUsage]
  by_cases hcl : !isZaiProv ∧ !claudeUsage.error
  · cases hp : claudeUsage.fiveHourPercent <;>
      simp [hcl, hp, List.append_assoc]
  · simp [hcl, List.append_assoc]

lemma round_mono_q {x y : ℚ} (h : x ≤ y) : round x ≤ round y := by
  rw [round_eq, round_eq]
  exact Int.floor_le_floor (by linarith)

lemma round_hundred : round (100 : ℚ) = 100 := by
  norm_num

/-- The source rounds first and clamps second; the spec reads clamp first and
round second.  The two agree. -/
lemma clampPercent_eq_round_clamp (v : ℚ) :
    clampPercent v = round (min (100 : ℚ) (max 0 v)) := by
  rcases le_total v 0 with h | h
  · have hr : round v ≤ 0 := by
      have := round_mono_q h
      simpa using this
    rw [clampPercent, max_eq_left hr, max_eq_left h]
    simp
  · rcases le_total v 100 with h' | h'
    · have h0 : (0 : ℤ) ≤ round v := by
        have := round_mono_q h
        simpa using this
      have h100 : round v ≤ 100 := by
        have := round_mono_q h'
        simpa [round_hundred] using this
      rw [clampPercent, max_eq_right h0, min_eq_right h100, max_eq_right h,
        min_eq_right h']
    · have h100 : (100 : ℤ) ≤ round v := by
        have := round_mono_q h'
        simpa [round_hundred] using this
      rw [clampPercent, max_eq_right (by omega : (0:ℤ) ≤ round v),
        min_eq_left h100, min_eq_left (le_max_of_le_right h')]
      exact round_hundred.symm

lemma clampPercent_nonneg (v : ℚ) : 0 ≤ clampPercent v := by
  unfold clampPercent
  omega

lemma clampPercent_le_hundred (v : ℚ) : clampPercent v ≤ 100 := by
  unfold clampPercent
  omega

/-! ## Claims -/

/-- C4: for all `currentValue` and `remaining` with
`total = currentValue + remaining > 0`, the derived usage percent is
`currentValue / total * 100` clamped to `[0, 100]` and rounded to the
nearest integer, hence always in `[0, 100]`; when `total ≤ 0` the result is
`null`. -/
theorem C4_usage_percent (c r : ℚ) :
    (0 < c + r →
      calculateUsagePercent c r
        = some (round (min (100 : ℚ) (max 0 (c / (c + r) * 100)))) ∧
      ∀ v, calculateUsagePercent c r = some v → 0 ≤ v ∧ v ≤ 100) ∧
    (c + r ≤ 0 → calculateUsagePercent c r = none) := by
  constructor
  · intro hpos
    have hne : ¬ (c + r ≤ 0) := not_le.mpr hpos
    constructor
    · simp only [calculateUsagePercent, hne, if_false]
      rw [clampPercent_eq_round_clamp]
    · intro v hv
      simp only [calculateUsagePercent, hne, if_false, Option.some.injEq] at hv
      subst hv
      exact ⟨clampPercent_nonneg _, clampPercent_le_hundred _⟩
  · intro hle
    simp [calculateUsagePercent, hle]

/-- Witness for C4 at `currentValue = 50`, `remaining = 150` (positive
total, percent 25) and `currentValue = 50`, `remaining = -50`
(non-positive total, `null`). -/
theorem C4_usage_percent_witness :
    (calculateUsagePercent 50 150
        = some (round (min (100 : ℚ) (max 0 (50 / (50 + 150) * 100)))) ∧
      calculateUsagePercent 50 150 = some 25) ∧
    calculateUsagePercent 50 (-50) = none :=
  ⟨⟨((C4_usage_percent 50 150).1 (by norm_num)).1,
      by norm_num [calculateUsagePercent, clampPercent]⟩,
    (C4_usage_percent 50 (-50)).2 (by norm_num)⟩

/-- C8: content made of newline-terminated lines is split on line
boundaries and each non-empty line is parsed independently; a line on which
the parser fails is silently skipped and the remaining lines still parse
(so a 3-line file with exactly one malformed line parses to exactly two
entries, as the witness instantiates). -/
theorem C8_malformed_line_skipped (p : List Char → Option TranscriptEntry)
    (lines : List (List Char)) (h : ∀ l ∈ lines, '\n' ∉ l) :
    parseJsonlContent p (linesJoin lines)
      = lines.filterMap (fun l => if l.isEmpty then none else p l) :=
  parseJsonlContent_linesJoin p lines h

/-- Witness for C8: the 3-line file `"a\nb\nc\n"` whose middle line is
malformed (rejected by the parser) yields exactly the 2 entries of the
well-formed lines. -/
theorem C8_malformed_line_skipped_witness :
    parseJsonlContent wParse (linesJoin [['a'], ['b'], ['c']])
      = [mkEntry "A", mkEntry "C"] ∧
    (parseJsonlContent wParse (linesJoin [['a'], ['b'], ['c']])).length = 2 := by
  have h := C8_malformed_line_skipped wParse [['a'], ['b'], ['c']] (by decide)
  rw [h]
  constructor
  · rfl
  · rfl

/-- C6: `getRunningTools` returns exactly the invocations whose id is in
the tool-use index but not in the tool-result set, each with its recorded
name and start time (parsed invocation timestamp, or the current time when
none was recorded); `getCompletedToolCount` is the size of the tool-result
set; parsing a result record for a previously running id removes it from
the running set and increases the completed count by exactly 1, and a
repeated result for the same id changes nothing. -/
theorem C6_running_tools_spec (d : String → ℤ) (now : ℤ)
    (t : ParsedTranscript) (id : String) :
    getRunningTools d now t
        = (t.toolUses.filter (fun p => p.1 ∉ t.toolResults)).map
            (mkRunningTool d now) ∧
    getCompletedToolCount t = t.toolResults.length ∧
    (id ≠ "" → id ∉ t.toolResults →
      (processEntry d t (resultEntry id)).toolResults = t.toolResults ++ [id] ∧
      getCompletedToolCount (processEntry d t (resultEntry id))
          = getCompletedToolCount t + 1 ∧
      id ∈ (processEntry d t (resultEntry id)).toolResults ∧
      getRunningTools d now (processEntry d t (resultEntry id))
          = (t.toolUses.filter (fun p => p.1 ∉ t.toolResults ∧ p.1 ≠ id)).map
              (mkRunningTool d now)) ∧
    (id ≠ "" → id ∈ t.toolResults →
      (processEntry d t (resultEntry id)).toolResults = t.toolResults ∧
      getCompletedToolCount (processEntry d t (resultEntry id))
          = getCompletedToolCount t ∧
      getRunningTools d now (processEntry d t (resultEntry id))
          = getRunningTools d now t) := by
  refine ⟨getRunningTools_eq' d now t, rfl, ?_, ?_⟩
  · intro hid hnot
    obtain ⟨hu, hr, -⟩ := processEntry_resultEntry d t id hid
    have hres : (processEntry d t (resultEntry id)).toolResults
        = t.toolResults ++ [id] := by
      rw [hr, setAdd, if_neg hnot]
    refine ⟨hres, ?_, ?_, ?_⟩
    · unfold getCompletedToolCount
      rw [hres]
      simp
    · rw [hres]
      simp
    · rw [getRunningTools_eq', hu, hres]
      apply congrArg
      apply List.filter_congr
      intro p _
      simp [List.mem_append, not_or]
  · intro hid hmem
    obtain ⟨hu, hr, -⟩ := processEntry_resultEntry d t id hid
    have hres : (processEntry d t (resultEntry id)).toolResults
        = t.toolResults := by
      rw [hr, setAdd, if_pos hmem]
    refine ⟨hres, ?_, ?_⟩
    · unfold getCompletedToolCount
      rw [hres]
    · rw [getRunningTools_eq', getRunningTools_eq', hu, hres]

/-- Witness for C6 at a state with the single unresolved invocation
`tool-1`: it is reported running; after its result record is processed the
completed count goes from 0 to 1 and the running list becomes empty. -/
theorem C6_running_tools_spec_witness :
    getRunningTools wDate 42 wState
        = (wState.toolUses.filter (fun p => p.1 ∉ wState.toolResults)).map
            (mkRunningTool wDate 42) ∧
    getCompletedToolCount (processEntry wDate wState (resultEntry "tool-1"))
        = getCompletedToolCount wState + 1 ∧
    getRunningTools wDate 42 (processEntry wDate wState (resultEntry "tool-1"))
        = (wState.toolUses.filter
            (fun p => p.1 ∉ wState.toolResults ∧ p.1 ≠ "tool-1")).map
            (mkRunningTool wDate 42) := by
  have h := C6_running_tools_spec wDate 42 wState "tool-1"
  have h3 := h.2.2.1 (by decide) (by decide)
  exact ⟨h.1, h3.2.1, h3.2.2.2⟩

/-- Processing entries never clears a nonzero session start time. -/
lemma processEntries_keeps_session (d : String → ℤ)
    (es : List TranscriptEntry) :
    ∀ (st : ParsedTranscript) (v : ℤ), st.sessionStartTime = some v → v ≠ 0 →
      (processEntries d es st).sessionStartTime = some v := by
  induction es with
  | nil => intro st v hv _; exact hv
  | cons e es ih =>
    intro st v hv hvz
    show (processEntries d es (processEntry d st e)).sessionStartTime = some v
    refine ih _ v ?_ hvz
    rw [processEntry_sessionStartTime, hv]
    simp [numTruthy, hvz]

/-- Entries without a truthy timestamp leave the session start time
alone. -/
lemma processEntries_session_no_ts (d : String → ℤ)
    (es : List TranscriptEntry) (h : ∀ r ∈ es, ¬ optStrTruthy r.timestamp) :
    ∀ st : ParsedTranscript,
      (processEntries d es st).sessionStartTime = st.sessionStartTime := by
  induction es with
  | nil => intro st; rfl
  | cons e es ih =>
    intro st
    have he : ¬ optStrTruthy e.timestamp := h e (List.mem_cons_self e es)
    have hes : ∀ r ∈ es, ¬ optStrTruthy r.timestamp :=
      fun r hr => h r (List.mem_cons_of_mem e hr)
    show (processEntries d es (processEntry d st e)).sessionStartTime = _
    rw [ih hes, processEntry_sessionStartTime]
    simp [he]

/-- C9 (amended): the first record bearing a truthy (non-empty) timestamp
sets the session start time, and later records never override a session
start time once it is set to a nonzero value.  (As the counterexample
shows, a start time whose parsed value is 0 — the epoch — is falsy in the
source's `!existing.sessionStartTime` test and is overridden by the next
timestamped record, so the unamended first-write-wins claim fails.) -/
theorem C9_session_start_first_write (d : String → ℤ)
    (pre : List TranscriptEntry) (e : TranscriptEntry)
    (post : List TranscriptEntry) (st : ParsedTranscript) (v : ℤ) :
    (st.sessionStartTime = some v → v ≠ 0 →
      (processEntries d post st).sessionStartTime = some v) ∧
    ((∀ r ∈ pre, ¬ optStrTruthy r.timestamp) → optStrTruthy e.timestamp →
      d (e.timestamp.getD "") ≠ 0 →
      (processEntries d (pre ++ e :: post) emptyParsed).sessionStartTime
        = some (d (e.timestamp.getD ""))) := by
  constructor
  · exact processEntries_keeps_session d post st v
  · intro hpre he hnz
    have hsplit : processEntries d (pre ++ e :: post) emptyParsed
        = processEntries d post
            (processEntry d (processEntries d pre emptyParsed) e) := by
      unfold processEntries
      rw [List.foldl_append]
      rfl
    rw [hsplit]
    refine processEntries_keeps_session d post _ _ ?_ hnz
    rw [processEntry_sessionStartTime,
      processEntries_session_no_ts d pre hpre emptyParsed]
    simp [emptyParsed, numTruthy, he]

/-- Witness for C9 (amended): a record without timestamp followed by a
record with a nonzero-parsing timestamp sets the start time to the
latter's parsed value, and it survives a further timestamped record. -/
theorem C9_session_start_first_write_witness :
    (processEntries wDate
        ([mkEntry "u"] ++ wEntryLater :: [wEntryEpoch]) emptyParsed).sessionStartTime
      = some (wDate (wEntryLater.timestamp.getD "")) :=
  (C9_session_start_first_write wDate [mkEntry "u"] wEntryLater [wEntryEpoch]
    emptyParsed 0).2 (by decide) (by decide) (by decide)

/-- Counterexample to C9 as stated: the first record bears the epoch
timestamp (which `new Date(...).getTime()` parses to 0, here embedded by
`wDate`); the stored value 0 is falsy, so the second timestamped record
overrides the session start time. -/
theorem C9_counterexample :
    wEntryEpoch.timestamp = some "1970-01-01T00:00:00.000Z" ∧
    wDate "1970-01-01T00:00:00.000Z" = 0 ∧
    (processEntries wDate [wEntryEpoch, wEntryLater] emptyParsed).sessionStartTime
        = some 1000 ∧
    (1000 : ℤ) ≠ wDate (wEntryEpoch.timestamp.getD "") := by
  refine ⟨rfl, rfl, rfl, by decide⟩

/-- C10 (amended): when the scan over resolved `TodoWrite` invocations
finds no truthy input, `extractTodoProgress` is `null`; when the last
truthy input it finds is not a (truthy, object-typed) value carrying a
`todos` array, the result is `null` exactly as when no such invocation
exists.  (As the counterexample shows, the unamended claim fails: an
invocation whose recorded input is falsy — e.g. the JSON literal `null` —
is skipped by the scan, which then falls back to the previous resolved
invocation's input instead of reporting nothing.) -/
theorem C10_todo_malformed_input (t : ParsedTranscript) :
    (lastTodoInput t = none → extractTodoProgress t = none) ∧
    (∀ j, lastTodoInput t = some j →
      (extractTodoProgress t = none ↔ todosArray? j = none)) := by
  constructor
  · intro h
    unfold extractTodoProgress
    rw [h]
  · intro j hj
    unfold extractTodoProgress
    rw [hj]
    unfold todosArray?
    by_cases h1 : (!jsTruthy j || !typeofIsObject j) = true
    · simp [h1]
    · cases hg : getField j "todos" with
      | none => simp [h1, hg]
      | some v => cases v <;> simp [h1, hg]

/-- Witness for C10 (amended): in a state whose only resolved `TodoWrite`
invocation carries the truthy but malformed input `{}` (an object without a
`todos` array), progress is reported absent. -/
theorem C10_todo_malformed_input_witness :
    lastTodoInput (processEntries wDate
        [invocationEntry "t1" "TodoWrite" (Json.obj []), resultEntry "t1"]
        emptyParsed) = some (Json.obj []) ∧
    todosArray? (Json.obj []) = none ∧
    extractTodoProgress (processEntries wDate
        [invocationEntry "t1" "TodoWrite" (Json.obj []), resultEntry "t1"]
        emptyParsed) = none := by
  refine ⟨rfl, rfl, ?_⟩
  exact ((C10_todo_malformed_input (processEntries wDate
      [invocationEntry "t1" "TodoWrite" (Json.obj []), resultEntry "t1"]
      emptyParsed)).2 (Json.obj []) rfl).mpr rfl

/-- Counterexample to C10 as stated: the chronologically last resolved
`TodoWrite` invocation (`t2`) carries the input `null` — not an object
containing a `todos` array — yet `extractTodoProgress` does not return
`null`: the scan skips the falsy input and reports the previous
invocation's snapshot. -/
theorem C10_counterexample :
    wTodoState.toolUses
        = [("t1", { name := "TodoWrite", timestamp := none }),
           ("t2", { name := "TodoWrite", timestamp := none })] ∧
    wTodoState.toolResults = ["t1", "t2"] ∧
    todosArray? Json.null = none ∧
    extractTodoProgress wTodoState
        = some { current := none, completed := 1, total := 1 } := by
  exact ⟨rfl, rfl, rfl, rfl⟩

lemma readFromOffset_full (content : List Char) :
    (readFromOffset content 0 content.length).1 = content := by
  unfold readFromOffset
  by_cases h : content.length ≤ 0
  · have : content = [] := List.eq_nil_of_length_eq_zero (Nat.le_zero.mp h)
    simp [h, this]
  · simp [h]

/-- C5: when the requested path differs from the tracked one or the file
shrank below the tracked offset, all accumulated state is discarded and the
file is re-parsed in full from byte 0; after every successful call the
tracked offset equals the observed file size; for a stable path whose size
has not shrunk, the tracked offset never decreases. -/
theorem C5_reset_and_offset_monotone (p : List Char → Option TranscriptEntry)
    (d : String → ℤ) (fs : String → Option (List Char)) (path : String)
    (c : CachedTranscript) (content : List Char) (h : fs path = some content) :
    ((path ≠ c.path ∨ content.length < c.size) →
      (parseTranscript p d fs path (some c)).cached
          = some (fullReparse p d path content) ∧
      (parseTranscript p d fs path (some c)).ret
          = some (fullReparse p d path content).data) ∧
    (∃ c', (parseTranscript p d fs path (some c)).cached = some c' ∧
      c'.path = path ∧ c'.size = content.length) ∧
    (c.path = path → c.size ≤ content.length →
      ∀ c', (parseTranscript p d fs path (some c)).cached = some c' →
        c.size ≤ c'.size) := by
  unfold parseTranscript
  rw [h]
  dsimp only
  by_cases hcond : c.path = path ∧ c.size ≤ content.length
  · rw [if_pos hcond]
    by_cases heq : c.size = content.length
    · rw [if_pos heq]
      refine ⟨?_, ⟨c, rfl, hcond.1.symm ▸ rfl, heq⟩, ?_⟩
      · intro hcase
        rcases hcase with hpath | hlt
        · exact absurd hcond.1.symm hpath
        · omega
      · intro _ _ c' hc'
        cases hc'
        exact le_refl _
    · rw [if_neg heq]
      refine ⟨?_, ⟨_, rfl, rfl, rfl⟩, ?_⟩
      · intro hcase
        rcases hcase with hpath | hlt
        · exact absurd hcond.1.symm hpath
        · omega
      · intro _ hle c' hc'
        cases hc'
        exact hle
  · rw [if_neg hcond]
    have hdata : (readFromOffset content 0 content.length).1 = content :=
      readFromOffset_full content
    refine ⟨?_, ⟨_, rfl, rfl, rfl⟩, ?_⟩
    · intro _
      rw [hdata]
      exact ⟨rfl, rfl⟩
    · intro hpath hle c' hc'
      cases hc'
      exact hle

/-- Witness for C5: a cache tracking offset 5 for `a.jsonl` meets a 2-byte
file (the file shrank), so the state is rebuilt by a full parse from byte
0 and the new tracked offset is the observed size 2. -/
theorem C5_reset_and_offset_monotone_witness :
    (parseTranscript wParse wDate wfs "a.jsonl" (some wCached)).cached
        = some (fullReparse wParse wDate "a.jsonl" ['a', '\n']) ∧
    (parseTranscript wParse wDate wfs "a.jsonl" (some wCached)).ret
        = some (fullReparse wParse wDate "a.jsonl" ['a', '\n']).data :=
  (C5_reset_and_offset_monotone wParse wDate wfs "a.jsonl" wCached ['a', '\n']
    (by decide)).1 (by decide)

/-- C3: when the tracked state corresponds to a full parse of the old
content (whole newline-terminated lines) and the file has grown by N whole
well-formed JSON lines, the next `parseTranscript` call reads exactly the
byte range past the tracked offset, returns the same `ParsedTranscript` a
full parse of the whole file from byte 0 would produce, and the entry count
grows by exactly N. -/
theorem C3_incremental_equals_full (p : List Char → Option TranscriptEntry)
    (d : String → ℤ) (fs : String → Option (List Char)) (path : String)
    (ls0 ls1 : List (List Char))
    (h0 : ∀ l ∈ ls0, '\n' ∉ l)
    (h1 : ∀ l ∈ ls1, '\n' ∉ l ∧ l ≠ [] ∧ (p l).isSome)
    (hne : ls1 ≠ [])
    (hfs : fs path = some (linesJoin ls0 ++ linesJoin ls1))
    (c : CachedTranscript)
    (hc : c = fullReparse p d path (linesJoin ls0)) :
    (parseTranscript p d fs path (some c)).reads
        = [((linesJoin ls0).length, (linesJoin ls1).length)] ∧
    (parseTranscript p d fs path (some c)).ret
        = some (fullReparse p d path (linesJoin ls0 ++ linesJoin ls1)).data ∧
    (parseTranscript p d fs path (some c)).cached
        = some (fullReparse p d path (linesJoin ls0 ++ linesJoin ls1)) ∧
    ∀ data', (parseTranscript p d fs path (some c)).ret = some data' →
      data'.entries.length = c.data.entries.length + ls1.length := by
  subst hc
  have happlen : 0 < (linesJoin ls1).length := linesJoin_length_pos ls1 hne
  have hlen : (linesJoin ls0 ++ linesJoin ls1).length
      = (linesJoin ls0).length + (linesJoin ls1).length := by
    simp
  have hcond : path = path ∧
      (linesJoin ls0).length ≤ (linesJoin ls0 ++ linesJoin ls1).length := by
    constructor
    · rfl
    · rw [hlen]; omega
  have hneq : ¬ ((linesJoin ls0).length = (linesJoin ls0 ++ linesJoin ls1).length) := by
    rw [hlen]; omega
  have hread : readFromOffset (linesJoin ls0 ++ linesJoin ls1)
      (linesJoin ls0).length (linesJoin ls0 ++ linesJoin ls1).length
      = (linesJoin ls1,
         [((linesJoin ls0).length,
           (linesJoin ls0 ++ linesJoin ls1).length - (linesJoin ls0).length)]) := by
    unfold readFromOffset
    rw [if_neg (by rw [hlen]; omega)]
    rw [List.take_length, List.drop_left]
  have hsub : (linesJoin ls0 ++ linesJoin ls1).length - (linesJoin ls0).length
      = (linesJoin ls1).length := by
    rw [hlen]; omega
  -- the parse of the appended region, and the equality with the full parse
  have hfm1 : parseJsonlContent p (linesJoin ls1)
      = ls1.filterMap (fun l => if l.isEmpty then none else p l) :=
    parseJsonlContent_linesJoin p ls1 (fun l hl => (h1 l hl).1)
  have hfm1len : (parseJsonlContent p (linesJoin ls1)).length = ls1.length := by
    rw [hfm1]
    refine length_filterMap_all_some _ ls1 ?_
    intro l hl
    obtain ⟨-, hne', hsome⟩ := h1 l hl
    simp [List.isEmpty_iff, hne', hsome]
  have hdata : processEntries d (parseJsonlContent p (linesJoin ls1))
        (processEntries d (parseJsonlContent p (linesJoin ls0)) emptyParsed)
      = processEntries d
          (parseJsonlContent p (linesJoin ls0 ++ linesJoin ls1)) emptyParsed := by
    rw [parseJsonlContent_linesJoin_append p ls0 (linesJoin ls1) h0,
      processEntries_append, parseJsonlContent_linesJoin p ls0 h0]
  -- now evaluate the call
  unfold parseTranscript
  rw [hfs]
  dsimp only [fullReparse]
  rw [if_pos hcond, if_neg hneq, hread]
  dsimp only
  refine ⟨by rw [hsub], ?_, ?_, ?_⟩
  · rw [hdata]
  · rw [hdata]
  · intro data' hdata'
    have : data' = processEntries d (parseJsonlContent p (linesJoin ls1))
        (processEntries d (parseJsonlContent p (linesJoin ls0)) emptyParsed) := by
      exact (Option.some.injEq _ _ ▸ hdata').symm
    rw [this, processEntries_entries]
    simp [hfm1len]

/-- Witness for C3: the one-line file `"a\n"` already parsed, grown to
`"a\nc\n"`; the incremental call reads bytes 2..4 and lands in the same
state as a full re-parse of the 4-byte file. -/
theorem C3_incremental_equals_full_witness :
    (parseTranscript wParse wDate wfs2 "a.jsonl" (some wCached2)).reads
        = [(2, 2)] ∧
    (parseTranscript wParse wDate wfs2 "a.jsonl" (some wCached2)).cached
        = some (fullReparse wParse wDate "a.jsonl" ['a', '\n', 'c', '\n']) := by
  have h := C3_incremental_equals_full wParse wDate wfs2 "a.jsonl"
    [['a']] [['c']] (by decide) (by decide) (by decide) rfl wCached2 rfl
  exact ⟨h.1, h.2.2.1⟩

/-- C7 (amended): the candidate set collected by `calculateRecommendation`
is `specCandidates` — Codex, Gemini and z.ai are eligible iff marked
available, not in error and with a non-null primary percentage, while
Claude's `available` flag is never consulted and Claude is instead gated on
not running under the z.ai provider.  With no candidates the result is
`null` with the fixed no-data reason; otherwise the selection is a
candidate of minimal primary percentage and the reason embeds that
percentage.  (The counterexample shows the unamended iff fails: an
unavailable Claude summary is still selected.) -/
theorem C7_recommendation (numToStr : ℚ → String) (isZaiProv : Bool)
    (claudeUsage : CLIUsageInfo) (codexUsage geminiUsage zaiUsage : Option CLIUsageInfo)
    (t : Translations) :
    (specCandidates isZaiProv claudeUsage codexUsage geminiUsage zaiUsage = [] →
      calculateRecommendation numToStr isZaiProv claudeUsage codexUsage
          geminiUsage zaiUsage t = (none, t.noData)) ∧
    (specCandidates isZaiProv claudeUsage codexUsage geminiUsage zaiUsage ≠ [] →
      ∃ best,
        best ∈ specCandidates isZaiProv claudeUsage codexUsage geminiUsage zaiUsage ∧
        (∀ c ∈ specCandidates isZaiProv claudeUsage codexUsage geminiUsage zaiUsage,
          best.score ≤ c.score) ∧
        calculateRecommendation numToStr isZaiProv claudeUsage codexUsage
            geminiUsage zaiUsage t
          = (some best.name,
             t.lowestUsage ++ " (" ++ numToStr best.score ++ "% " ++ t.used ++ ")")) := by
  have hcand := candidatesOf_eq_spec isZaiProv claudeUsage codexUsage geminiUsage zaiUsage
  constructor
  · intro h
    unfold calculateRecommendation
    rw [hcand, h]
    simp
  · intro h
    unfold calculateRecommendation
    rw [hcand]
    have hlen : ¬ (specCandidates isZaiProv claudeUsage codexUsage geminiUsage
        zaiUsage).length = 0 := by
      simpa [List.length_eq_zero] using h
    rw [if_neg hlen]
    have hperm := sortCands_perm
      (specCandidates isZaiProv claudeUsage codexUsage geminiUsage zaiUsage)
    have hsorted := sortCands_sorted
      (specCandidates isZaiProv claudeUsage codexUsage geminiUsage zaiUsage)
    have hsne : sortCands (specCandidates isZaiProv claudeUsage codexUsage
        geminiUsage zaiUsage) ≠ [] := by
      intro h0
      exact h (List.eq_nil_of_length_eq_zero (by rw [← hperm.length_eq, h0]; rfl))
    obtain ⟨best, rest, hbr⟩ := List.exists_cons_of_ne_nil hsne
    refine ⟨best, ?_, ?_, ?_⟩
    · exact hperm.mem_iff.mp (hbr ▸ List.mem_cons_self best rest)
    · intro c hc
      have hc' : c ∈ best :: rest := hbr ▸ hperm.mem_iff.mpr hc
      rw [hbr, List.sorted_cons] at hsorted
      rcases List.mem_cons.mp hc' with rfl | hcr
      · exact le_refl _
      · exact hsorted.1 c hcr
    · rw [hbr]
      rfl

/-- Witness for C7 (amended) at the claim's own scenario — scores
Claude 50, Codex 30, Gemini 40, z.ai null (ineligible): the Codex provider
with score 30 is selected and the reason embeds `30`. -/
theorem C7_recommendation_witness :
    calculateRecommendation wNum false (wUsage "Claude" (some 50))
        (some (wUsage "Codex" (some 30))) (some (wUsage "Gemini" (some 40)))
        (some (wUsage "z.ai" none)) wT
      = (some "codex", "lowest usage (30% used)") := by
  have h := (C7_recommendation wNum false (wUsage "Claude" (some 50))
      (some (wUsage "Codex" (some 30))) (some (wUsage "Gemini" (some 40)))
      (some (wUsage "z.ai" none)) wT).2 (by decide)
  obtain ⟨best, hmem, hmin, heq⟩ := h
  have hs : specCandidates false (wUsage "Claude" (some 50))
      (some (wUsage "Codex" (some 30))) (some (wUsage "Gemini" (some 40)))
      (some (wUsage "z.ai" none))
      = [{ name := "claude", score := 50 }, { name := "codex", score := 30 },
         { name := "gemini", score := 40 }] := rfl
  rw [hs] at hmem hmin
  fin_cases hmem
  · exact absurd (hmin { name := "codex", score := 30 } (by simp)) (by norm_num)
  · exact heq
  · exact absurd (hmin { name := "codex", score := 30 } (by simp)) (by norm_num)

/-- Counterexample to C7 as stated: a Claude summary that is NOT marked
available (so, per the claim, ineligible — and with every other provider
absent the claim demands the null selection with the no-data reason) is
nevertheless selected, because the source never consults
`claudeUsage.available`. -/
theorem C7_counterexample :
    wBadClaude.available = false ∧ wBadClaude.error = false ∧
    wBadClaude.fiveHourPercent = some 50 ∧
    (calculateRecommendation wNum false wBadClaude none none none wT).1
        = some "claude" :=
  ⟨rfl, rfl, rfl, rfl⟩

/-- C1: per cache key (endpoint base URL plus credential fingerprint), in
every reachable coordinator state at most one network fetch is in flight;
a call that misses or finds a stale cache while a request for its key is
pending returns that same pending task (same promise id) without touching
the state; a call within `ttlSeconds` of a cached snapshot returns the
snapshot without any state change; and in the two-call scenarios — second
call while the first is in flight, or second call after the first
completed within the TTL — exactly one network fetch (`startFetch`) is
issued. -/
theorem C1_dedup_single_flight (hashToken : String → String) (b tok : String)
    (st : ZaiState) (e : CacheEntry ZaiUsageLimits) (data : ZaiUsageLimits)
    (now0 now1 t1 t2 : ℤ) (ttl : ℚ) (pid0 pid1 : ℕ) :
    (∀ sys, ZaiReachable hashToken (ZaiEnv.mk true (some b) (some tok)) sys →
      ∀ k, sys.inflight.count k ≤ 1) ∧
    (∀ pid, mapFind? st.pendingRequests (zaiCacheKey hashToken b tok) = some pid →
      (∀ ce, mapFind? st.zaiCacheMap (zaiCacheKey hashToken b tok) = some ce →
        ¬ ((now1 : ℚ) - ce.timestamp) / 1000 < ttl) →
      fetchZaiCall hashToken (ZaiEnv.mk true (some b) (some tok)) st now1 ttl pid1
        = (st, .awaitPending pid)) ∧
    (mapFind? st.zaiCacheMap (zaiCacheKey hashToken b tok) = some e →
      ((now1 : ℚ) - e.timestamp) / 1000 < ttl →
      fetchZaiCall hashToken (ZaiEnv.mk true (some b) (some tok)) st now1 ttl pid1
        = (st, .cacheHit e.data)) ∧
    (fetchZaiCall hashToken (ZaiEnv.mk true (some b) (some tok))
        (ZaiState.mk [] []) now0 ttl pid0
      = (ZaiState.mk [] [(zaiCacheKey hashToken b tok, pid0)], .startFetch pid0) ∧
     fetchZaiCall hashToken (ZaiEnv.mk true (some b) (some tok))
        (ZaiState.mk [] [(zaiCacheKey hashToken b tok, pid0)]) now1 ttl pid1
      = (ZaiState.mk [] [(zaiCacheKey hashToken b tok, pid0)],
         .awaitPending pid0) ∧
     fetchZaiComplete (ZaiState.mk [] [(zaiCacheKey hashToken b tok, pid0)])
        (zaiCacheKey hashToken b tok) (some data) t1
      = ZaiState.mk [(zaiCacheKey hashToken b tok, CacheEntry.mk data t1)] [] ∧
     (((t2 : ℚ) - t1) / 1000 < ttl →
      fetchZaiCall hashToken (ZaiEnv.mk true (some b) (some tok))
          (ZaiState.mk [(zaiCacheKey hashToken b tok, CacheEntry.mk data t1)] [])
          t2 ttl pid1
        = (ZaiState.mk [(zaiCacheKey hashToken b tok, CacheEntry.mk data t1)] [],
           .cacheHit data))) := by
  refine ⟨?_, ?_, ?_, ?_, ?_, ?_, ?_⟩
  · intro sys hreach k
    have hinv := zaiInv_reachable hashToken _ sys hreach
    rw [hinv.2 k]
    by_cases h : (mapFind? sys.st.pendingRequests k).isSome <;> simp [h]
  · intro pid hpend hstale
    cases hc : mapFind? st.zaiCacheMap (zaiCacheKey hashToken b tok) with
    | none => simp [fetchZaiCall, hc, hpend]
    | some ce =>
      have hnf := hstale ce hc
      simp [fetchZaiCall, hc, hnf, hpend]
  · intro he hfresh
    simp [fetchZaiCall, he, hfresh]
  · simp [fetchZaiCall, mapFind?, mapSet]
  · simp [fetchZaiCall, mapFind?]
  · simp [fetchZaiComplete, mapSet, mapDelete]
  · intro hfresh
    simp [fetchZaiCall, mapFind?, hfresh]

/-- Witness for C1 at concrete inputs: token fingerprint `hash`, base URL
`u`, a first call at time 0 with TTL 60 s, and a second call 1 s after the
first completed. -/
theorem C1_dedup_single_flight_witness :
    fetchZaiCall (fun _ => "h") (ZaiEnv.mk true (some "u") (some "s"))
        (ZaiState.mk [] []) 0 60 7
      = (ZaiState.mk [] [(zaiCacheKey (fun _ => "h") "u" "s", 7)], .startFetch 7) ∧
    fetchZaiCall (fun _ => "h") (ZaiEnv.mk true (some "u") (some "s"))
        (ZaiState.mk [] [(zaiCacheKey (fun _ => "h") "u" "s", 7)]) 500 60 8
      = (ZaiState.mk [] [(zaiCacheKey (fun _ => "h") "u" "s", 7)],
         .awaitPending 7) ∧
    fetchZaiCall (fun _ => "h") (ZaiEnv.mk true (some "u") (some "s"))
        (ZaiState.mk [(zaiCacheKey (fun _ => "h") "u" "s",
          CacheEntry.mk wLimits 1000)] []) 2000 60 8
      = (ZaiState.mk [(zaiCacheKey (fun _ => "h") "u" "s",
          CacheEntry.mk wLimits 1000)] [], .cacheHit wLimits) := by
  have h := C1_dedup_single_flight (fun _ => "h") "u" "s"
    (ZaiState.mk [] []) (CacheEntry.mk wLimits 1000) wLimits 0 500 1000 2000 60 7 8
  refine ⟨h.2.2.2.1, h.2.2.2.2.1, ?_⟩
  have h4 := h.2.2.2.2.2.2 (by norm_num)
  exact h4

/-- C2: every failing fetch attempt — thrown `fetch` (timeout or network
error), non-2xx status, unparsable body, or a body failing structural
validation — makes `fetchFromZaiApi` return `null` without throwing (the
embedding is total), and the completion of such a failed request leaves the
cache map unchanged, so a previously stored valid entry for the same key is
still present and unmodified.  (`fetchFromCodexApi` has the same structure:
its cache write is also guarded by a successfully validated response.) -/
theorem C2_failure_returns_null_cache_intact (resp : HttpResult)
    (st : ZaiState) (key : String) (now : ℤ)
    (prior : CacheEntry ZaiUsageLimits) (hfail : FailingResp resp) :
    fetchFromZaiApi resp = none ∧
    (mapFind? st.zaiCacheMap key = some prior →
      (fetchZaiComplete st key (fetchFromZaiApi resp) now).zaiCacheMap
          = st.zaiCacheMap ∧
      mapFind? (fetchZaiComplete st key (fetchFromZaiApi resp) now).zaiCacheMap
          key = some prior) := by
  have hnull : fetchFromZaiApi resp = none := by
    cases resp with
    | throwErr => rfl
    | response ok body =>
      rcases hfail with hok | hbody | ⟨dta, hdta, hshape⟩
      · subst hok
        rfl
      · subst hbody
        cases ok <;> rfl
      · subst hdta
        cases ok with
        | false => rfl
        | true =>
          rcases hshape with ht | ht | ht
          · simp [fetchFromZaiApi, ht]
          · simp [fetchFromZaiApi, ht]
          · simp only [fetchFromZaiApi]
            cases hl : zaiLimits? dta with
            | none => simp [hl]
            | some v =>
              cases v with
              | arr ls => exact absurd hl (ht ls)
              | null => simp [hl]
              | bool x => simp [hl]
              | num x => simp [hl]
              | str x => simp [hl]
              | obj x => simp [hl]
  refine ⟨hnull, ?_⟩
  intro hprior
  rw [hnull]
  exact ⟨rfl, hprior⟩

/-- Witness for C2: a 200 response whose body `{}` fails the structural
validation (no `data.limits` array); the previously stored entry under `k`
survives the failed fetch unchanged. -/
theorem C2_failure_returns_null_cache_intact_witness :
    fetchFromZaiApi (HttpResult.response true (some (Json.obj []))) = none ∧
    (fetchZaiComplete wZaiState "k"
        (fetchFromZaiApi (HttpResult.response true (some (Json.obj [])))) 99).zaiCacheMap
      = wZaiState.zaiCacheMap ∧
    mapFind? (fetchZaiComplete wZaiState "k"
        (fetchFromZaiApi (HttpResult.response true (some (Json.obj [])))) 99).zaiCacheMap
      "k" = some (CacheEntry.mk wLimits 5) := by
  have hfail : FailingResp (HttpResult.response true (some (Json.obj []))) := by
    right
    right
    exact ⟨Json.obj [], rfl, Or.inr (Or.inr (fun ls h => by
      simp [zaiLimits?, getField] at h))⟩
  have h := C2_failure_returns_null_cache_intact
    (HttpResult.response true (some (Json.obj []))) wZaiState "k" 99
    (CacheEntry.mk wLimits 5) hfail
  have h2 := h.2 rfl
  exact ⟨h.1, h2.1, h2.2⟩

end ClaudeDashboard
